import Mathlib

/-!
# Verification of the Pokémon scraping pipeline (`src/scraping.py`)

A shallow embedding of the `PokemonScraping` class.  HTML documents are
modelled as a tree of element/text nodes; the three CSS queries used by the
source (`div.infocard > span.infocard-lg-img > a`, `#main > h1`,
`[id^="tab-basic-"] table`) are implemented as tree traversals returning
matches in document order, exactly as BeautifulSoup's `select` does.  Python
dictionaries are modelled as insertion-ordered association lists with
unique keys; `pandas` dataframes as a column list plus rows of optional
cell values (`none` is pandas' missing value `NaN`).  Errors raised by the
Python code are modelled with `Except`:

* `AttributeError` on a missing `#main > h1` node → `Err.missingField`
  (the spec's `MissingFieldError`);
* `ValueError` when `dataframe is None` in `save_dataframe_to_oracle` →
  `Err.emptyTable` (the spec's `EmptyTableError`);
* `KeyError` on a missing connection key → `Err.configError` (the spec's
  `ConfigError`);
* `KeyError` on an anchor without an `href` attribute → `Err.missingHref`.

Database effects are returned as a trace in the `.ok` result of
`save_dataframe_to_oracle`; an `.error` result performs no effect (no
connection is opened, no destination table is written).
-/

/-- Python `str.strip()` / BeautifulSoup `strip=True`: drop leading and
trailing whitespace.  (Implemented over the character list so that it is
structurally recursive and evaluates in the kernel.) -/
def pyStrip (s : String) : String :=
  String.mk (((s.data.dropWhile Char.isWhitespace).reverse.dropWhile
    Char.isWhitespace).reverse)

/-- Python startswith over character lists (used for `[id^="tab-basic-"]`). -/
def pyStartsWith (s pre : String) : Bool :=
  List.isPrefixOf pre.data s.data

/-- Join a list of strings with a separator between consecutive elements
(BeautifulSoup `get_text(sep, ...)`). -/
def joinSep (sep : String) : List String → String
  | [] => ""
  | [s] => s
  | s :: rest => s ++ sep ++ joinSep sep rest

/-! ## Python dictionaries

A `Dict` is an insertion-ordered association list.  `dictInsert` models
`d[k] = v`: an existing binding is updated in place, a new key is appended.
`dictUpdate` models `d.update(e)`. -/

/-- An insertion-ordered string-to-string mapping (a Python `dict`). -/
abbrev Dict : Type := List (String × String)

/-- Keys of a dict, in insertion order. -/
def keysOf (d : Dict) : List String := d.map Prod.fst

/-- First value bound to a key in an association list. -/
def pairLookup {α : Type} : List (String × α) → String → Option α
  | [], _ => none
  | (k', v) :: rest, k => if k' = k then some v else pairLookup rest k

/-- First value bound to `k`, if any (`d.get(k)` / `d[k]` when present). -/
def lookupD (d : Dict) (k : String) : Option String :=
  pairLookup d k

/-- Value of the LAST binding of `k` in an association list (what a fold
of inserts leaves behind). -/
def lastVal : Dict → String → Option String
  | [], _ => none
  | (k', v) :: rest, k =>
      match lastVal rest k with
      | some w => some w
      | none => if k' = k then some v else none

/-- Assignment `d[k] = v`: update the binding in place if `k` is present, else append. -/
def dictInsert (d : Dict) (k v : String) : Dict :=
  if (keysOf d).contains k then
    d.map (fun kv => if kv.1 = k then (k, v) else kv)
  else
    d ++ [(k, v)]

/-- Python `d.update(e)`: insert every binding of `e` into `d`, left to right. -/
def dictUpdate (d e : Dict) : Dict :=
  e.foldl (fun acc kv => dictInsert acc kv.1 kv.2) d

/-! ## HTML documents

`Node` is a markup tree: element nodes carry a tag name, the class list,
the `id` attribute and the `href` attribute (the only two attributes the
source reads), and children; text nodes carry a string.  A mutual inductive
(rather than `List Node` children) keeps all traversals structurally
recursive, so concrete documents evaluate in the kernel. -/

mutual
inductive Node where
  | text (s : String)
  | elem (tag : String) (classes : List String) (idAttr hrefAttr : Option String)
      (children : NodeList)
deriving DecidableEq
inductive NodeList where
  | nil
  | cons (n : Node) (ns : NodeList)
deriving DecidableEq
end

/-- Build a `NodeList` from a `List Node` (for readable document literals). -/
def nodes : List Node → NodeList
  | [] => .nil
  | n :: ns => .cons n (nodes ns)

mutual
/-- All descendant text-node strings of a node, in document order. -/
def Node.strings : Node → List String
  | .text s => [s]
  | .elem _ _ _ _ cs => NodeList.strings cs
def NodeList.strings : NodeList → List String
  | .nil => []
  | .cons n ns => n.strings ++ NodeList.strings ns
end

/-- BeautifulSoup `get_text(strip=True)`: strip every descendant string,
drop the ones that become empty, concatenate the rest. -/
def getTextStrip (n : Node) : String :=
  joinSep "" ((n.strings.map pyStrip).filter (fun s => s ≠ ""))

/-- BeautifulSoup `get_text(" ", strip=True)`: strip every descendant
string, drop the empty ones, join the rest with single spaces. -/
def getTextSpace (n : Node) : String :=
  joinSep " " ((n.strings.map pyStrip).filter (fun s => s ≠ ""))

/-- Tag name of a node (`""` for a text node). -/
def Node.tagOf : Node → String
  | .text _ => ""
  | .elem t _ _ _ _ => t

/-- Class test: element node whose `class` attribute contains `c`. -/
def Node.hasClass (n : Node) (c : String) : Bool :=
  match n with
  | .text _ => false
  | .elem _ cls _ _ _ => cls.contains c

/-- The `href` attribute, if present. -/
def Node.hrefOf : Node → Option String
  | .text _ => none
  | .elem _ _ _ h _ => h

/-- The `id` attribute, if present. -/
def Node.idOf : Node → Option String
  | .text _ => none
  | .elem _ _ i _ _ => i

mutual
/-- Matches of the CSS query `div.infocard > span.infocard-lg-img > a`
(the listing selector at `src/scraping.py:51`), in document order.
`pDiv` records that the current node's parent is a `div.infocard`;
`ok` that its parent is a `span.infocard-lg-img` whose own parent is a
`div.infocard`. -/
def Node.cardAnchors (pDiv ok : Bool) : Node → List Node
  | .text _ => []
  | .elem tag cls i h cs =>
      (if ok && tag = "a" then [Node.elem tag cls i h cs] else []) ++
      NodeList.cardAnchors (tag = "div" && cls.contains "infocard")
        (pDiv && tag = "span" && cls.contains "infocard-lg-img") cs
def NodeList.cardAnchors (pDiv ok : Bool) : NodeList → List Node
  | .nil => []
  | .cons n ns =>
      Node.cardAnchors pDiv ok n ++ NodeList.cardAnchors pDiv ok ns
end

mutual
/-- Matches of the CSS query `#main > h1` (the heading selector at
`src/scraping.py:114`), in document order.  `pMain` records that the
current node's parent has `id="main"`. -/
def Node.mainH1s (pMain : Bool) : Node → List Node
  | .text _ => []
  | .elem tag cls i h cs =>
      (if pMain && tag = "h1" then [Node.elem tag cls i h cs] else []) ++
      NodeList.mainH1s (i = some "main") cs
def NodeList.mainH1s (pMain : Bool) : NodeList → List Node
  | .nil => []
  | .cons n ns => Node.mainH1s pMain n ++ NodeList.mainH1s pMain ns
end

mutual
/-- Matches of the CSS query `[id^="tab-basic-"] table` (the attribute
tables selector at `src/scraping.py:119`), in document order.  `inTab`
records that some proper ancestor has an `id` starting with
`tab-basic-`. -/
def Node.basicTables (inTab : Bool) : Node → List Node
  | .text _ => []
  | .elem tag cls i h cs =>
      (if inTab && tag = "table" then [Node.elem tag cls i h cs] else []) ++
      NodeList.basicTables
        (inTab || (match i with
                   | some s => pyStartsWith s "tab-basic-"
                   | none => false)) cs
def NodeList.basicTables (inTab : Bool) : NodeList → List Node
  | .nil => []
  | .cons n ns => Node.basicTables inTab n ++ NodeList.basicTables inTab ns
end

mutual
/-- All proper-descendant elements with tag `t`, in document order
(BeautifulSoup `select(t)` on a tag / `find(t)` takes the head). -/
def Node.descTag (t : String) : Node → List Node
  | .text _ => []
  | .elem _ _ _ _ cs => NodeList.descTag t cs
def NodeList.descTag (t : String) : NodeList → List Node
  | .nil => []
  | .cons n ns =>
      (match n with
       | .text _ => []
       | .elem tag cls i h cs =>
           (if tag = t then [Node.elem tag cls i h cs] else []) ++
           NodeList.descTag t cs) ++
      NodeList.descTag t ns
end

/-! ## Errors and database effects -/

/-- Failures of the pipeline, named after the spec's error kinds (§7).
`missingField` is the `AttributeError` raised at `src/scraping.py:116` when
`select_one("#main > h1")` returns `None`; `emptyTable` is the
`ValueError` at line 147; `configError k` is the `KeyError` for the
connection key `k` at lines 149–154; `missingHref` is the `KeyError` for
`tag["href"]` at line 54. -/
inductive Err where
  | missingField
  | emptyTable
  | configError (key : String)
  | missingHref
deriving DecidableEq

/-- Observable actions against the external relational store. -/
inductive Effect where
  | connect (user dsn : String)
  | writeTable (name : String) (cols : List String)
      (rows : List (List (Option String))) (ifExists : String)
deriving DecidableEq

/-! ## Dataframes

A `DataFrame` is a list of column names plus rows; each row is one cell per
column, in column order.  A `none` cell is pandas' missing value (`NaN`),
the "empty/null" of the spec. -/

structure DataFrame where
  cols : List String
  rows : List (List (Option String))
deriving DecidableEq

/-- Pandas `pd.DataFrame([d])` for one dict `d` (`src/scraping.py:131`): columns
are the dict's keys in insertion order, and there is a single row holding
the dict's values. -/
def rowDF (d : Dict) : DataFrame :=
  { cols := keysOf d, rows := [d.map (fun kv => some kv.2)] }

/-- The cell a source row provides for column `c`: its value if `c` is one
of the source columns, `none` (missing) otherwise. -/
def colLookup (srcCols : List String) (row : List (Option String))
    (c : String) : Option String :=
  match pairLookup (srcCols.zip row) c with
  | some v => v
  | none => none

/-- Re-express a row given over `srcCols` as a row over `cols`. -/
def reindex (cols srcCols : List String) (row : List (Option String)) :
    List (Option String) :=
  cols.map (colLookup srcCols row)

/-- Pandas `pd.concat([df, r], ignore_index=True)` (`src/scraping.py:136`): the
result's columns are `df`'s columns followed by `r`'s new columns in order
of appearance (pandas outer join on the columns, `sort=False`), and every
row of either frame is re-indexed to the combined columns, absent cells
becoming missing values. -/
def concatDF (df r : DataFrame) : DataFrame :=
  let cols := df.cols ++ r.cols.filter (fun c => !df.cols.contains c)
  { cols := cols
  , rows := df.rows.map (reindex cols df.cols) ++
            r.rows.map (reindex cols r.cols) }

/-! ## The scraping operations (`PokemonScraping`) -/

/-- Method `PokemonScraping.build_pokemon_url` (`src/scraping.py:57`). -/
def build_pokemon_url (pokemon_suffix : String) : String :=
  "https://pokemondb.net" ++ pokemon_suffix

/-- Method `PokemonScraping.get_urls` (`src/scraping.py:42`): fetch the listing
page, select `div.infocard > span.infocard-lg-img > a`, and take each
anchor's `href`.  `pages` is the opaque page fetcher (`fetch_soup`): it
maps a URL to the parsed document.  A matched anchor without an `href`
raises `KeyError` in Python, modelled as `Err.missingHref`. -/
def get_urls (pages : String → Node) (url_path : String) :
    Except Err (List String) :=
  (Node.cardAnchors false false (pages url_path)).mapM
    (fun tag => match tag.hrefOf with
                | some h => Except.ok h
                | none => Except.error Err.missingHref)

/-- Method `PokemonScraping.get_table_dict` (`src/scraping.py:74`): over the
`tr` descendants of the table, whenever a row has both a `th` and a `td`
descendant, bind the `th`'s stripped text to the `td`'s space-joined text
(last write wins on duplicate keys within the table). -/
def get_table_dict (table : Node) : Dict :=
  (Node.descTag "tr" table).foldl
    (fun data tr =>
      match (Node.descTag "th" tr).head?, (Node.descTag "td" tr).head? with
      | some th, some td =>
          dictInsert data (getTextStrip th) (getTextSpace td)
      | _, _ => data)
    []

/-- Method `PokemonScraping.get_pokemon_data` (`src/scraping.py:101`): fetch the
detail page, require the `#main > h1` heading (else `Err.missingField`),
store its stripped text under the reserved key `"Pokemon Name"` in the
scraper's running dict, then `update` that dict with every
`[id^="tab-basic-"] table` in document order.  The running dict is passed
in and returned explicitly (`self.pokemon_dict_data`). -/
def get_pokemon_data (pokemon_dict_data : Dict) (doc : Node) :
    Except Err Dict :=
  match (Node.mainH1s false doc).head? with
  | none => Except.error Err.missingField
  | some h1 =>
      let d := dictInsert pokemon_dict_data "Pokemon Name" (getTextStrip h1)
      Except.ok ((Node.basicTables false doc).foldl
        (fun acc t => dictUpdate acc (get_table_dict t)) d)

/-- Method `PokemonScraping.build_database` (`src/scraping.py:124`): wrap the
current dict as a one-row frame; seed the accumulator if it is unset,
otherwise concatenate. -/
def build_database (dataframe : Option DataFrame) (pokemon_dict_data : Dict) :
    Option DataFrame :=
  let row := rowDF pokemon_dict_data
  match dataframe with
  | none => some row
  | some df => some (concatDF df row)

/-- Ordered list of required connection keys (`src/scraping.py:149-154`). -/
def requiredConnKeys : List String :=
  ["user", "password", "host", "port", "service", "table_name"]

/-- Access `conn[k]` on the connection dict: `KeyError` → `Err.configError k`. -/
def connGet (conn : Dict) (k : String) : Except Err String :=
  match lookupD conn k with
  | some v => Except.ok v
  | none => Except.error (Err.configError k)

/-- The write path of `save_dataframe_to_oracle` once the dataframe check
has passed: read the six connection keys in source order, build the DSN,
connect and write with `if_exists="replace"`. -/
def oracle_write (df : DataFrame) (conn : Dict) : Except Err (List Effect) := do
  let user ← connGet conn "user"
  let _password ← connGet conn "password"
  let host ← connGet conn "host"
  let port ← connGet conn "port"
  let service ← connGet conn "service"
  let table_name ← connGet conn "table_name"
  let dsn := host ++ ":" ++ port ++ "/" ++ service
  Except.ok [Effect.connect user dsn,
             Effect.writeTable table_name df.cols df.rows "replace"]

/-- Method `PokemonScraping.save_dataframe_to_oracle` (`src/scraping.py:141`):
reject an unset dataframe (`ValueError` → `Err.emptyTable`), otherwise run
the write path.  The returned effect trace is produced only on success: an
`.error` result opens no connection and writes no table. -/
def save_dataframe_to_oracle (dataframe : Option DataFrame) (conn : Dict) :
    Except Err (List Effect) :=
  match dataframe with
  | none => Except.error Err.emptyTable
  | some df => oracle_write df conn

/-! ## The orchestrator (`run_scraping` and the module entry point) -/

/-- The mutable fields of `PokemonScraping` that the per-entity loop
touches: the running attribute dict and the accumulated dataframe. -/
structure ScrapState where
  pokemon_dict_data : Dict
  dataframe : Option DataFrame
deriving DecidableEq

/-- The scraper's initial state (`field(default_factory=dict)`, `None`). -/
def initState : ScrapState := { pokemon_dict_data := [], dataframe := none }

/-- One iteration of the loop in `run_scraping` (`src/scraping.py:185-188`):
build the absolute URL, fetch and extract the detail page, append to the
accumulator. -/
def processOne (pages : String → Node) (st : ScrapState) (suffix : String) :
    Except Err ScrapState := do
  let d ← get_pokemon_data st.pokemon_dict_data (pages (build_pokemon_url suffix))
  Except.ok { pokemon_dict_data := d, dataframe := build_database st.dataframe d }

/-- Method `PokemonScraping.run_scraping` (`src/scraping.py:176`): list the
entity suffixes, then process each in order; the first failure aborts the
run. -/
def run_scraping (pages : String → Node) (url_path : String)
    (st : ScrapState) : Except Err ScrapState := do
  let suffixes ← get_urls pages url_path
  suffixes.foldlM (processOne pages) st

/-- The module entry point (`src/scraping.py:192-207`): run the scrape,
then persist; a scraping failure aborts before any persistence effect. -/
def run_and_persist (pages : String → Node) (url_path : String)
    (conn : Dict) : Except Err (List Effect) := do
  let st ← run_scraping pages url_path initState
  save_dataframe_to_oracle st.dataframe conn

/-! ## Derived notions used by the claims -/

/-- Number of rows of the accumulator: an unset frame has zero rows. -/
def tableRows : Option DataFrame → Nat
  | none => 0
  | some df => df.rows.length

/-- A Table of the system's data model (spec §3, §4.4): the accumulator
value reached from the unset state by a sequence of appends. -/
def Producible (dataframe : Option DataFrame) : Prop :=
  ∃ ds : List Dict, dataframe = ds.foldl build_database none

/-- Column-union of a list of dicts, in order of first appearance. -/
def colsUnion (ds : List Dict) : List String :=
  ds.foldl (fun acc d => acc ++ (keysOf d).filter (fun c => !acc.contains c)) []

/-- Modelled from the spec: accumulating rows "as a single batch" (§8),
which the source never does (it only appends one row at a time).  Columns
are the union of the rows' key sets in order of first appearance; each row
holds the dict's value where the dict has the column and the missing value
otherwise. -/
def batchTable (ds : List Dict) : Option DataFrame :=
  match ds with
  | [] => none
  | _ :: _ =>
      let cols := colsUnion ds
      some { cols := cols, rows := ds.map (fun d => cols.map (lookupD d)) }

/-- The cell of row `i`, column `c` (first column of that name), as the
frame stores it: `none` if the row is out of range, `some none` for a
missing value. -/
def cellVal (df : DataFrame) (i : Nat) (c : String) : Option (Option String) :=
  match df.rows[i]? with
  | none => none
  | some r => pairLookup (df.cols.zip r) c

/-- A row's `"Pokemon Name"` cell is present and non-empty. -/
def rowNameOk (cols : List String) (r : List (Option String)) : Bool :=
  match pairLookup (cols.zip r) "Pokemon Name" with
  | some (some s) => s ≠ ""
  | _ => false

/-- Every row of the accumulator has a non-empty display-name value. -/
def nameNonEmpty : Option DataFrame → Prop
  | none => True
  | some df => ∀ r ∈ df.rows, rowNameOk df.cols r = true

/-- All header/data pairs the detail page's tables contribute, one table
dict after another, in document order. -/
def allPairs (doc : Node) : Dict :=
  (Node.basicTables false doc).flatMap get_table_dict

/-- The distinct attribute keys contributed by the detail page's tables,
in document order. -/
def contributedKeys (doc : Node) : List String :=
  (keysOf (allPairs doc)).dedup

/-- First table in the list that binds `k`, and its value for `k`. -/
def firstSomeLookup (ts : List Node) (k : String) : Option String :=
  match ts with
  | [] => none
  | t :: rest =>
      match lookupD (get_table_dict t) k with
      | some v => some v
      | none => firstSomeLookup rest k

/-- The value retained for key `k` per the "later table wins" rule: the
value in the last (document-order) attribute table that binds `k`. -/
def lastTableValue (doc : Node) (k : String) : Option String :=
  firstSomeLookup (Node.basicTables false doc).reverse k

/-- The display-name value a detail page yields, independent of the
running dict: the heading's stripped text, possibly overwritten by an
attribute row keyed `"Pokemon Name"`. -/
def nameValue (doc : Node) : Except Err String :=
  (get_pokemon_data [] doc).map (fun d => (lookupD d "Pokemon Name").getD "")



/-! ## Concrete documents (test fixtures for the scenarios in the spec) -/

instance {e a : Type} [DecidableEq e] [DecidableEq a] :
    DecidableEq (Except e a) := fun x y =>
  match x, y with
  | .error u, .error v =>
      if h : u = v then isTrue (by rw [h]) else
        isFalse (fun hh => h (by injection hh))
  | .error _, .ok _ => isFalse (fun hh => by injection hh)
  | .ok _, .error _ => isFalse (fun hh => by injection hh)
  | .ok u, .ok v =>
      if h : u = v then isTrue (by rw [h]) else
        isFalse (fun hh => h (by injection hh))

/-- A listing card matching `div.infocard > span.infocard-lg-img > a`. -/
def cardC (href : String) : Node :=
  .elem "div" ["infocard"] none none (nodes
    [.elem "span" ["infocard-lg-img"] none none (nodes
      [.elem "a" [] none (some href) (nodes [])])])

/-- The end-to-end scenario's listing page: two entity anchors. -/
def c1Listing : Node :=
  .elem "html" [] none none (nodes [cardC "/pokedex/1", cardC "/pokedex/2"])

/-- Detail page 1: heading `Bulbasaur`, one attribute row Type → Grass / Poison. -/
def c1Page1 : Node :=
  .elem "html" [] none none (nodes
    [ .elem "div" [] (some "main") none (nodes
        [.elem "h1" [] none none (nodes [.text "Bulbasaur"])])
    , .elem "div" [] (some "tab-basic-1") none (nodes
        [.elem "table" [] none none (nodes
          [.elem "tr" [] none none (nodes
            [ .elem "th" [] none none (nodes [.text "Type"])
            , .elem "td" [] none none (nodes [.text "Grass / Poison"])])])])])

/-- Detail page 2: heading `Ivysaur`, no attribute tables. -/
def c1Page2 : Node :=
  .elem "html" [] none none (nodes
    [ .elem "div" [] (some "main") none (nodes
        [.elem "h1" [] none none (nodes [.text "Ivysaur"])])])

/-- Page fetcher for the end-to-end scenario. -/
def c1Pages (u : String) : Node :=
  if u = "https://pokemondb.net/pokedex/1" then c1Page1
  else if u = "https://pokemondb.net/pokedex/2" then c1Page2
  else c1Listing

/-- The frame the source actually produces on the end-to-end scenario:
entity 1's `Type` value leaks into entity 2's row. -/
def c1Result : DataFrame :=
  { cols := ["Pokemon Name", "Type"]
  , rows := [[some "Bulbasaur", some "Grass / Poison"],
             [some "Ivysaur", some "Grass / Poison"]] }

/-- A detail page whose `#main` region has no `h1` at all. -/
def noHeadingPage : Node :=
  .elem "html" [] none none (nodes
    [.elem "div" [] (some "main") none (nodes [])])

/-- Page fetcher for the failure scenario: entity 1 is fine, entity 9's
page lacks the primary heading. -/
def c3Pages (u : String) : Node :=
  if u = "https://pokemondb.net/pokedex/1" then c1Page1
  else if u = "https://pokemondb.net/pokedex/9" then noHeadingPage
  else .elem "html" [] none none (nodes [cardC "/pokedex/1", cardC "/pokedex/9"])

/-- A detail page whose `h1` exists but has empty text. -/
def emptyHeadingPage : Node :=
  .elem "html" [] none none (nodes
    [ .elem "div" [] (some "main") none (nodes
        [.elem "h1" [] none none (nodes [])])])

/-- Page fetcher whose single entity has an empty heading. -/
def c8Pages (u : String) : Node :=
  if u = "https://pokemondb.net/pokedex/7" then emptyHeadingPage
  else .elem "html" [] none none (nodes [cardC "/pokedex/7"])

/-- A detail page with a valid heading and one attribute row whose header
collides with the reserved `"Pokemon Name"` key. -/
def reservedKeyPage : Node :=
  .elem "html" [] none none (nodes
    [ .elem "div" [] (some "main") none (nodes
        [.elem "h1" [] none none (nodes [.text "Pika"])])
    , .elem "div" [] (some "tab-basic-1") none (nodes
        [.elem "table" [] none none (nodes
          [.elem "tr" [] none none (nodes
            [ .elem "th" [] none none (nodes [.text "Pokemon Name"])
            , .elem "td" [] none none (nodes [.text "Hacked"])])])])])

/-! ## Lemmas: association lists and dictionaries -/

theorem pairLookup_append {α : Type} (a b : List (String × α)) (k : String) :
    pairLookup (a ++ b) k =
      match pairLookup a k with
      | some v => some v
      | none => pairLookup b k := by
  induction a with
  | nil => rfl
  | cons hd tl ih =>
      obtain ⟨k', v⟩ := hd
      by_cases h : k' = k <;> simp [pairLookup, h, ih]

theorem pairLookup_eq_none {α : Type} (a : List (String × α)) (k : String)
    (h : k ∉ a.map Prod.fst) : pairLookup a k = none := by
  induction a with
  | nil => rfl
  | cons hd tl ih =>
      obtain ⟨k', v⟩ := hd
      simp only [List.map_cons, List.mem_cons] at h
      push_neg at h
      simp only [pairLookup]
      rw [if_neg (fun hh => h.1 hh.symm)]
      exact ih h.2

theorem pairLookup_some_mem {α : Type} {a : List (String × α)} {k : String}
    {v : α} (h : pairLookup a k = some v) : k ∈ a.map Prod.fst := by
  induction a with
  | nil => simp [pairLookup] at h
  | cons hd tl ih =>
      obtain ⟨k', w⟩ := hd
      by_cases hk : k' = k
      · simp [hk]
      · simp only [pairLookup, hk, if_false] at h
        simp [ih h]

theorem pairLookup_zip_self (cols : List String) (f : String → Option String)
    (k : String) :
    pairLookup (cols.zip (cols.map f)) k =
      if k ∈ cols then some (f k) else none := by
  induction cols with
  | nil => simp [pairLookup]
  | cons c cs ih =>
      rw [List.map_cons, List.zip_cons_cons]
      by_cases h : c = k
      · subst h; simp [pairLookup]
      · simp only [pairLookup]
        rw [if_neg h, ih]
        by_cases hm : k ∈ cs
        · simp [hm, List.mem_cons]
        · have hcc : k ∉ c :: cs := by
            intro hmem
            rcases List.mem_cons.mp hmem with hh | hh
            · exact h hh.symm
            · exact hm hh
          rw [if_neg hm, if_neg hcc]

theorem pairLookup_map_pairs (d : Dict) (k : String) :
    pairLookup (d.map (fun kv => (kv.1, some kv.2))) k =
      (pairLookup d k).map some := by
  induction d with
  | nil => rfl
  | cons hd tl ih =>
      obtain ⟨k', v⟩ := hd
      by_cases h : k' = k <;> simp [pairLookup, h, ih]

theorem keysOf_append (a b : Dict) : keysOf (a ++ b) = keysOf a ++ keysOf b :=
  List.map_append _ a b

theorem pairLookup_isSome_of_mem {α : Type} (a : List (String × α))
    (k : String) (h : k ∈ a.map Prod.fst) : ∃ w, pairLookup a k = some w := by
  induction a with
  | nil => simp at h
  | cons hd tl ih =>
      obtain ⟨k', v⟩ := hd
      by_cases hk : k' = k
      · exact ⟨v, by simp [pairLookup, hk]⟩
      · simp only [List.map_cons, List.mem_cons] at h
        rcases h with h | h
        · exact absurd h.symm hk
        · obtain ⟨w, hw⟩ := ih h
          exact ⟨w, by simp [pairLookup, hk, hw]⟩

theorem keysOf_dictInsert_of_mem (d : Dict) (k v : String)
    (h : k ∈ keysOf d) : keysOf (dictInsert d k v) = keysOf d := by
  unfold dictInsert
  rw [if_pos (List.elem_iff.mpr h)]
  unfold keysOf
  rw [List.map_map]
  refine List.map_congr_left (fun kv _ => ?_)
  show (if kv.1 = k then (k, v) else kv).1 = kv.1
  by_cases hk : kv.1 = k
  · rw [if_pos hk]
    exact hk.symm
  · rw [if_neg hk]

theorem keysOf_dictInsert_of_not_mem (d : Dict) (k v : String)
    (h : k ∉ keysOf d) : keysOf (dictInsert d k v) = keysOf d ++ [k] := by
  unfold dictInsert
  rw [if_neg (fun hc => h (List.elem_iff.mp hc))]
  unfold keysOf
  rw [List.map_append]
  rfl

theorem mem_keysOf_dictInsert (d : Dict) (k v m : String) :
    m ∈ keysOf (dictInsert d k v) ↔ m ∈ keysOf d ∨ m = k := by
  by_cases h : k ∈ keysOf d
  · rw [keysOf_dictInsert_of_mem d k v h]
    constructor
    · exact Or.inl
    · rintro (hm | rfl)
      · exact hm
      · exact h
  · rw [keysOf_dictInsert_of_not_mem d k v h]
    simp

theorem nodup_keysOf_dictInsert (d : Dict) (k v : String)
    (h : (keysOf d).Nodup) : (keysOf (dictInsert d k v)).Nodup := by
  by_cases hm : k ∈ keysOf d
  · rwa [keysOf_dictInsert_of_mem d k v hm]
  · rw [keysOf_dictInsert_of_not_mem d k v hm]
    exact List.Nodup.append h (List.nodup_singleton k)
      (fun a ha hb => hm (by rwa [List.mem_singleton.mp hb] at ha))

theorem pairLookup_mapUpdate_eq (d : Dict) (k v : String)
    (h : k ∈ keysOf d) :
    pairLookup (d.map (fun kv => if kv.1 = k then (k, v) else kv)) k =
      some v := by
  induction d with
  | nil => simp [keysOf] at h
  | cons hd tl ih =>
      obtain ⟨k', w⟩ := hd
      rw [List.map_cons]
      by_cases hk : k' = k
      · subst hk
        have hhead :
            (if (k', w).1 = k' then (k', v) else (k', w)) = (k', v) := by
          simp
        rw [hhead]
        simp [pairLookup]
      · have hhead :
            (if (k', w).1 = k then (k, v) else (k', w)) = (k', w) := by
          simp [hk]
        rw [hhead]
        simp only [keysOf, List.map_cons, List.mem_cons] at h
        rcases h with h | h
        · exact absurd h.symm hk
        · simp only [pairLookup]
          rw [if_neg hk]
          exact ih h

theorem pairLookup_mapUpdate_ne (d : Dict) (k v m : String) (hm : m ≠ k) :
    pairLookup (d.map (fun kv => if kv.1 = k then (k, v) else kv)) m =
      pairLookup d m := by
  induction d with
  | nil => rfl
  | cons hd tl ih =>
      obtain ⟨k', w⟩ := hd
      rw [List.map_cons]
      by_cases hk : k' = k
      · subst hk
        have hhead :
            (if (k', w).1 = k' then (k', v) else (k', w)) = (k', v) := by
          simp
        rw [hhead]
        simp only [pairLookup]
        rw [if_neg (fun hh : k' = m => hm hh.symm),
          if_neg (fun hh : k' = m => hm hh.symm)]
        exact ih
      · have hhead :
            (if (k', w).1 = k then (k, v) else (k', w)) = (k', w) := by
          simp [hk]
        rw [hhead]
        simp only [pairLookup]
        by_cases hk'm : k' = m
        · rw [if_pos hk'm, if_pos hk'm]
        · rw [if_neg hk'm, if_neg hk'm]
          exact ih

theorem lookupD_dictInsert (d : Dict) (k v m : String) :
    lookupD (dictInsert d k v) m = if k = m then some v else lookupD d m := by
  unfold lookupD dictInsert
  by_cases hc : k ∈ keysOf d
  · rw [if_pos (List.elem_iff.mpr hc)]
    by_cases hm : k = m
    · subst hm
      rw [if_pos rfl]
      exact pairLookup_mapUpdate_eq d k v hc
    · rw [if_neg hm]
      exact pairLookup_mapUpdate_ne d k v m (fun hh => hm hh.symm)
  · rw [if_neg (fun hcc => hc (List.elem_iff.mp hcc))]
    rw [pairLookup_append]
    by_cases hm : k = m
    · subst hm
      rw [pairLookup_eq_none d k hc]
      simp [pairLookup]
    · by_cases hmem : m ∈ keysOf d
      · obtain ⟨w, hw⟩ := pairLookup_isSome_of_mem d m hmem
        rw [if_neg hm, hw]
      · rw [if_neg hm, pairLookup_eq_none d m hmem]
        simp [pairLookup, hm]

theorem lastVal_append (e1 e2 : Dict) (k : String) :
    lastVal (e1 ++ e2) k =
      match lastVal e2 k with
      | some w => some w
      | none => lastVal e1 k := by
  induction e1 with
  | nil => cases h : lastVal e2 k <;> simp [lastVal, h]
  | cons hd tl ih =>
      obtain ⟨k', v⟩ := hd
      rw [List.cons_append]
      show (match lastVal (tl ++ e2) k with
            | some w => some w
            | none => if k' = k then some v else none) = _
      rw [ih]
      cases h2 : lastVal e2 k <;> cases ht : lastVal tl k <;>
        simp [lastVal, h2, ht]

theorem lastVal_eq_none (e : Dict) (k : String) (h : k ∉ keysOf e) :
    lastVal e k = none := by
  induction e with
  | nil => rfl
  | cons hd tl ih =>
      obtain ⟨k', v⟩ := hd
      simp only [keysOf, List.map_cons, List.mem_cons] at h
      push_neg at h
      show (match lastVal tl k with
            | some w => some w
            | none => if k' = k then some v else none) = none
      rw [ih h.2, if_neg (fun hh => h.1 hh.symm)]

theorem lastVal_eq_lookupD (e : Dict) (k : String)
    (h : (keysOf e).Nodup) : lastVal e k = lookupD e k := by
  induction e with
  | nil => rfl
  | cons hd tl ih =>
      obtain ⟨k', v⟩ := hd
      simp only [keysOf, List.map_cons, List.nodup_cons] at h
      show (match lastVal tl k with
            | some w => some w
            | none => if k' = k then some v else none) =
           (if k' = k then some v else pairLookup tl k)
      by_cases hk : k' = k
      · subst hk
        rw [lastVal_eq_none tl k' h.1, if_pos rfl]
        simp
      · rw [ih h.2]
        unfold lookupD
        cases ht : pairLookup tl k <;> simp [ht, hk]

theorem dictUpdate_append (a e1 e2 : Dict) :
    dictUpdate a (e1 ++ e2) = dictUpdate (dictUpdate a e1) e2 := by
  unfold dictUpdate
  rw [List.foldl_append]

theorem lookupD_dictUpdate (a e : Dict) (k : String) :
    lookupD (dictUpdate a e) k =
      match lastVal e k with
      | some w => some w
      | none => lookupD a k := by
  induction e generalizing a with
  | nil => rfl
  | cons hd tl ih =>
      obtain ⟨k', v⟩ := hd
      show lookupD (dictUpdate (dictInsert a k' v) tl) k = _
      rw [ih, lookupD_dictInsert]
      cases ht : lastVal tl k
      · by_cases hk : k' = k <;> simp [lastVal, ht, hk]
      · simp [lastVal, ht]

theorem mem_keysOf_dictUpdate (a e : Dict) (m : String) :
    m ∈ keysOf (dictUpdate a e) ↔ m ∈ keysOf a ∨ m ∈ keysOf e := by
  induction e generalizing a with
  | nil => simp [dictUpdate, keysOf]
  | cons hd tl ih =>
      show m ∈ keysOf (dictUpdate (dictInsert a hd.1 hd.2) tl) ↔ _
      rw [ih, mem_keysOf_dictInsert]
      simp only [keysOf, List.map_cons, List.mem_cons]
      tauto

theorem nodup_keysOf_dictUpdate (a e : Dict) (h : (keysOf a).Nodup) :
    (keysOf (dictUpdate a e)).Nodup := by
  induction e generalizing a with
  | nil => exact h
  | cons hd tl ih => exact ih _ (nodup_keysOf_dictInsert a hd.1 hd.2 h)

/-! ## Lemmas: the detail extractor -/

theorem lastVal_isSome_of_mem (e : Dict) (k : String)
    (h : k ∈ keysOf e) : ∃ w, lastVal e k = some w := by
  induction e with
  | nil => simp [keysOf] at h
  | cons hd tl ih =>
      obtain ⟨k', v⟩ := hd
      simp only [keysOf, List.map_cons, List.mem_cons] at h
      by_cases hm : k ∈ keysOf tl
      · obtain ⟨w, hw⟩ := ih hm
        exact ⟨w, by
          show (match lastVal tl k with
                | some w => some w
                | none => if k' = k then some v else none) = some w
          rw [hw]⟩
      · rcases h with h | h
        · refine ⟨v, ?_⟩
          show (match lastVal tl k with
                | some w => some w
                | none => if k' = k then some v else none) = some v
          rw [lastVal_eq_none tl k hm, if_pos h.symm]
        · exact absurd h hm

theorem nodup_keysOf_get_table_dict (t : Node) :
    (keysOf (get_table_dict t)).Nodup := by
  unfold get_table_dict
  have main : ∀ (l : List Node) (d : Dict), (keysOf d).Nodup →
      (keysOf (l.foldl (fun data tr =>
        match (Node.descTag "th" tr).head?, (Node.descTag "td" tr).head? with
        | some th, some td => dictInsert data (getTextStrip th) (getTextSpace td)
        | _, _ => data) d)).Nodup := by
    intro l
    induction l with
    | nil => intro d hd; exact hd
    | cons tr rest ih =>
        intro d hd
        rw [List.foldl_cons]
        cases h1 : (Node.descTag "th" tr).head? <;>
          cases h2 : (Node.descTag "td" tr).head? <;>
          simp only [h1, h2] <;>
          first
            | exact ih d hd
            | exact ih _ (nodup_keysOf_dictInsert d _ _ hd)
  exact main _ [] (by simp [keysOf])

theorem foldl_dictUpdate_flatMap (ts : List Node) (d : Dict) :
    ts.foldl (fun acc t => dictUpdate acc (get_table_dict t)) d =
      dictUpdate d (ts.flatMap get_table_dict) := by
  induction ts generalizing d with
  | nil => rfl
  | cons t rest ih =>
      rw [List.foldl_cons, ih, List.flatMap_cons, dictUpdate_append]

theorem get_pokemon_data_eq (d0 : Dict) (doc : Node) (h1 : Node)
    (hh : (Node.mainH1s false doc).head? = some h1) :
    get_pokemon_data d0 doc =
      Except.ok (dictUpdate (dictInsert d0 "Pokemon Name" (getTextStrip h1))
        (allPairs doc)) := by
  unfold get_pokemon_data
  rw [hh]
  show Except.ok (List.foldl (fun acc t => dictUpdate acc (get_table_dict t))
    (dictInsert d0 "Pokemon Name" (getTextStrip h1))
    (Node.basicTables false doc)) = _
  rw [foldl_dictUpdate_flatMap]
  rfl

theorem get_pokemon_data_err (d0 : Dict) (doc : Node)
    (hh : (Node.mainH1s false doc).head? = none) :
    get_pokemon_data d0 doc = Except.error Err.missingField := by
  unfold get_pokemon_data
  rw [hh]

theorem get_pokemon_data_only_missingField (d0 : Dict) (doc : Node) (e : Err)
    (h : get_pokemon_data d0 doc = Except.error e) : e = Err.missingField := by
  unfold get_pokemon_data at h
  cases hh : (Node.mainH1s false doc).head? with
  | none =>
      rw [hh] at h
      cases h
      rfl
  | some h1 =>
      rw [hh] at h
      cases h

theorem get_pokemon_data_name_val (d0 : Dict) (doc : Node) (h1 : Node) :
    lookupD (dictUpdate (dictInsert d0 "Pokemon Name" (getTextStrip h1))
        (allPairs doc)) "Pokemon Name" =
      some ((lastVal (allPairs doc) "Pokemon Name").getD (getTextStrip h1)) := by
  rw [lookupD_dictUpdate]
  cases hlv : lastVal (allPairs doc) "Pokemon Name"
  · rw [lookupD_dictInsert]
    simp
  · simp

theorem get_pokemon_data_name (d0 : Dict) (doc : Node) (d : Dict)
    (h : get_pokemon_data d0 doc = Except.ok d) :
    ∃ v, lookupD d "Pokemon Name" = some v ∧ nameValue doc = Except.ok v := by
  cases hh : (Node.mainH1s false doc).head? with
  | none =>
      rw [get_pokemon_data_err d0 doc hh] at h
      cases h
  | some h1 =>
      rw [get_pokemon_data_eq d0 doc h1 hh] at h
      injection h with h
      subst h
      refine ⟨(lastVal (allPairs doc) "Pokemon Name").getD (getTextStrip h1),
        get_pokemon_data_name_val d0 doc h1, ?_⟩
      have hnv : nameValue doc =
          Except.ok ((lookupD (dictUpdate
            (dictInsert [] "Pokemon Name" (getTextStrip h1)) (allPairs doc))
            "Pokemon Name").getD "") := by
        unfold nameValue
        rw [get_pokemon_data_eq [] doc h1 hh]
        rfl
      rw [hnv, get_pokemon_data_name_val [] doc h1]
      rfl

theorem firstSomeLookup_append (l1 l2 : List Node) (k : String) :
    firstSomeLookup (l1 ++ l2) k =
      match firstSomeLookup l1 k with
      | some v => some v
      | none => firstSomeLookup l2 k := by
  induction l1 with
  | nil => rfl
  | cons t rest ih =>
      rw [List.cons_append]
      show (match lookupD (get_table_dict t) k with
            | some v => some v
            | none => firstSomeLookup (rest ++ l2) k) = _
      cases h : lookupD (get_table_dict t) k <;>
        simp [firstSomeLookup, h, ih]

theorem lastVal_flatMap (ts : List Node) (k : String) :
    lastVal (ts.flatMap get_table_dict) k = firstSomeLookup ts.reverse k := by
  induction ts with
  | nil => rfl
  | cons t rest ih =>
      rw [List.flatMap_cons, lastVal_append, ih, List.reverse_cons,
        firstSomeLookup_append]
      cases h : firstSomeLookup rest.reverse k
      · show lastVal (get_table_dict t) k = _
        rw [lastVal_eq_lookupD _ _ (nodup_keysOf_get_table_dict t)]
        show _ = (match lookupD (get_table_dict t) k with
                  | some v => some v
                  | none => firstSomeLookup [] k)
        cases h2 : lookupD (get_table_dict t) k <;>
          simp [h2, firstSomeLookup]
      · rfl

/-! ## Lemmas: the dataframe accumulator -/

/-- The invariant relating an accumulated frame to the dicts appended into
it: the columns are the running column union and every row is its dict
evaluated over those columns. -/
structure Represents (df : DataFrame) (ds : List Dict) : Prop where
  cols_eq : df.cols = colsUnion ds
  rows_eq : df.rows = ds.map (fun d => df.cols.map (lookupD d))

theorem colsUnion_append (ds : List Dict) (d : Dict) :
    colsUnion (ds ++ [d]) =
      colsUnion ds ++ (keysOf d).filter (fun c => !(colsUnion ds).contains c) := by
  unfold colsUnion
  rw [List.foldl_append]
  rfl

theorem mem_colsUnion (ds : List Dict) (c : String) :
    c ∈ colsUnion ds ↔ ∃ d ∈ ds, c ∈ keysOf d := by
  have main : ∀ (l : List Dict) (acc : List String),
      c ∈ l.foldl (fun acc d => acc ++ (keysOf d).filter
        (fun c => !acc.contains c)) acc ↔
      c ∈ acc ∨ ∃ d ∈ l, c ∈ keysOf d := by
    intro l
    induction l with
    | nil => simp
    | cons d rest ih =>
        intro acc
        rw [List.foldl_cons, ih]
        constructor
        · rintro (hm | hm)
          · rcases List.mem_append.mp hm with hm | hm
            · exact Or.inl hm
            · exact Or.inr ⟨d, List.mem_cons_self d rest, (List.mem_filter.mp hm).1⟩
          · obtain ⟨d', hd', hc⟩ := hm
            exact Or.inr ⟨d', List.mem_cons_of_mem d hd', hc⟩
        · rintro (hm | ⟨d', hd', hc⟩)
          · exact Or.inl (List.mem_append.mpr (Or.inl hm))
          · rcases List.mem_cons.mp hd' with rfl | hd'
            · by_cases hacc : c ∈ acc
              · exact Or.inl (List.mem_append.mpr (Or.inl hacc))
              · refine Or.inl (List.mem_append.mpr (Or.inr ?_))
                exact List.mem_filter.mpr ⟨hc, by simp [hacc]⟩
            · exact Or.inr ⟨d', hd', hc⟩
  rw [colsUnion, main]
  simp

theorem colLookup_map (cols : List String) (f : String → Option String)
    (c : String) :
    colLookup cols (cols.map f) c = if c ∈ cols then f c else none := by
  unfold colLookup
  rw [pairLookup_zip_self]
  by_cases h : c ∈ cols <;> simp [h]

theorem colLookup_rowDF (d : Dict) (c : String) :
    colLookup (keysOf d) (d.map (fun kv => some kv.2)) c = lookupD d c := by
  unfold colLookup keysOf
  have hz : (d.map Prod.fst).zip (d.map (fun kv => some kv.2)) =
      d.map (fun kv => (kv.1, some kv.2)) := List.zip_map' _ _ d
  rw [hz, pairLookup_map_pairs]
  unfold lookupD
  cases h : pairLookup d c <;> simp [h]

theorem vals_eq_map_lookup (d : Dict) (h : (keysOf d).Nodup) :
    d.map (fun kv => some kv.2) = (keysOf d).map (fun c => lookupD d c) := by
  induction d with
  | nil => rfl
  | cons hd tl ih =>
      obtain ⟨k, v⟩ := hd
      simp only [keysOf, List.map_cons, List.nodup_cons] at h
      show some v :: tl.map (fun kv => some kv.2) =
        lookupD ((k, v) :: tl) k :: (keysOf tl).map (lookupD ((k, v) :: tl))
      congr 1
      · show some v = if k = k then some v else pairLookup tl k
        rw [if_pos rfl]
      · have hih := ih h.2
        unfold keysOf at hih
        rw [hih]
        refine List.map_congr_left (fun c hc => ?_)
        show pairLookup tl c = if k = c then some v else pairLookup tl c
        rw [if_neg (fun hh : k = c => h.1 (hh ▸ hc))]

theorem represents_base (d : Dict) (h : (keysOf d).Nodup) :
    Represents (rowDF d) [d] := by
  constructor
  case cols_eq =>
    show keysOf d = colsUnion [d]
    unfold colsUnion
    rw [List.foldl_cons, List.foldl_nil]
    simp
  case rows_eq =>
    show [d.map (fun kv => some kv.2)] = [d].map (fun d' => (keysOf d).map (lookupD d'))
    rw [List.map_cons, List.map_nil]
    rw [vals_eq_map_lookup d h]

theorem represents_step (df : DataFrame) (ds : List Dict) (d : Dict)
    (hr : Represents df ds) :
    Represents (concatDF df (rowDF d)) (ds ++ [d]) := by
  obtain ⟨hc, hrows⟩ := hr
  have hcols : (concatDF df (rowDF d)).cols =
      df.cols ++ (keysOf d).filter (fun c => !df.cols.contains c) := rfl
  constructor
  case cols_eq =>
    rw [hcols, colsUnion_append, hc]
  case rows_eq =>
    have hrows' : (concatDF df (rowDF d)).rows =
        df.rows.map (reindex (concatDF df (rowDF d)).cols df.cols) ++
          [reindex (concatDF df (rowDF d)).cols (keysOf d)
            (d.map (fun kv => some kv.2))] := rfl
    rw [hrows', List.map_append, List.map_cons, List.map_nil]
    congr 1
    · rw [hrows, List.map_map]
      refine List.map_congr_left (fun d' hd' => ?_)
      show reindex (concatDF df (rowDF d)).cols df.cols
        (df.cols.map (lookupD d')) = (concatDF df (rowDF d)).cols.map (lookupD d')
      unfold reindex
      refine List.map_congr_left (fun c hcmem => ?_)
      rw [colLookup_map]
      by_cases hdc : c ∈ df.cols
      · rw [if_pos hdc]
      · rw [if_neg hdc]
        have hnotin : c ∉ keysOf d' := by
          intro hmem
          apply hdc
          rw [hc]
          exact (mem_colsUnion ds c).mpr ⟨d', hd', hmem⟩
        exact (pairLookup_eq_none d' c hnotin).symm
    · congr 1
      show reindex (concatDF df (rowDF d)).cols (keysOf d)
        (d.map (fun kv => some kv.2)) = (concatDF df (rowDF d)).cols.map (lookupD d)
      unfold reindex
      refine List.map_congr_left (fun c _ => ?_)
      exact colLookup_rowDF d c

theorem foldl_build_database (ds : List Dict)
    (hnd : ∀ d ∈ ds, (keysOf d).Nodup) (hne : ds ≠ []) :
    ∃ df, ds.foldl build_database none = some df ∧ Represents df ds := by
  induction ds using List.reverseRecOn with
  | nil => exact absurd rfl hne
  | append_singleton ds d ih =>
      rw [List.foldl_append, List.foldl_cons, List.foldl_nil]
      by_cases hds : ds = []
      · subst hds
        exact ⟨rowDF d, rfl, represents_base d (hnd d (by simp))⟩
      · obtain ⟨df, hdf, hrep⟩ :=
          ih (fun d' hd' => hnd d' (List.mem_append.mpr (Or.inl hd'))) hds
        rw [hdf]
        exact ⟨concatDF df (rowDF d), rfl, represents_step df ds d hrep⟩

theorem foldl_build_database_length (ds : List Dict) (df : DataFrame) :
    ∃ df', ds.foldl build_database (some df) = some df' ∧
      df'.rows.length = df.rows.length + ds.length := by
  induction ds generalizing df with
  | nil => exact ⟨df, rfl, by simp⟩
  | cons d rest ih =>
      rw [List.foldl_cons]
      obtain ⟨df', hdf', hlen⟩ := ih (concatDF df (rowDF d))
      refine ⟨df', hdf', ?_⟩
      have hcc : (concatDF df (rowDF d)).rows.length = df.rows.length + 1 := by
        show (df.rows.map _ ++ (rowDF d).rows.map _).length = _
        simp [rowDF]
      rw [hlen, hcc, List.length_cons]
      omega

theorem producible_rows_zero (t : Option DataFrame) (hp : Producible t)
    (hz : tableRows t = 0) : t = none := by
  obtain ⟨ds, rfl⟩ := hp
  cases ds with
  | nil => rfl
  | cons d rest =>
      exfalso
      obtain ⟨df', hdf', hlen⟩ := foldl_build_database_length rest (rowDF d)
      have hfold : (d :: rest).foldl build_database none =
          rest.foldl build_database (some (rowDF d)) := rfl
      rw [hfold, hdf'] at hz
      have hz' : df'.rows.length = 0 := hz
      have hrow : (rowDF d).rows.length = 1 := by simp [rowDF]
      rw [hrow] at hlen
      omega

/-! ## Lemmas: the orchestrator -/

theorem processOne_only_missingField (pages : String → Node) (st : ScrapState)
    (s : String) (e : Err)
    (h : processOne pages st s = Except.error e) : e = Err.missingField := by
  unfold processOne at h
  cases hg : get_pokemon_data st.pokemon_dict_data (pages (build_pokemon_url s)) with
  | error e' =>
      rw [hg] at h
      have h' : (Except.error e' : Except Err ScrapState) = Except.error e := h
      injection h' with h'
      rw [← h']
      exact get_pokemon_data_only_missingField _ _ _ hg
  | ok d =>
      rw [hg] at h
      have h' : Except.ok (ScrapState.mk d (build_database st.dataframe d)) =
        Except.error e := h
      cases h'

theorem processOne_ok (pages : String → Node) (st : ScrapState) (s : String)
    (st' : ScrapState) (h : processOne pages st s = Except.ok st') :
    ∃ d, get_pokemon_data st.pokemon_dict_data (pages (build_pokemon_url s)) =
        Except.ok d ∧
      st' = { pokemon_dict_data := d, dataframe := build_database st.dataframe d } := by
  unfold processOne at h
  cases hg : get_pokemon_data st.pokemon_dict_data (pages (build_pokemon_url s)) with
  | error e =>
      rw [hg] at h
      have h' : (Except.error e : Except Err ScrapState) = Except.ok st' := h
      cases h'
  | ok d =>
      rw [hg] at h
      have h' : Except.ok (ScrapState.mk d (build_database st.dataframe d)) =
        Except.ok st' := h
      injection h' with h'
      exact ⟨d, rfl, h'.symm⟩

theorem processOne_err_of_no_heading (pages : String → Node) (st : ScrapState)
    (s : String)
    (hnone : (Node.mainH1s false (pages (build_pokemon_url s))).head? = none) :
    processOne pages st s = Except.error Err.missingField := by
  unfold processOne
  rw [get_pokemon_data_err _ _ hnone]
  rfl

theorem foldlM_missing (pages : String → Node) (suffixes : List String)
    (st : ScrapState) (s : String) (hmem : s ∈ suffixes)
    (hnone : (Node.mainH1s false (pages (build_pokemon_url s))).head? = none) :
    List.foldlM (processOne pages) st suffixes =
      Except.error Err.missingField := by
  revert hmem
  induction suffixes generalizing st with
  | nil => intro hmem; cases hmem
  | cons a rest ih =>
      intro hmem
      have hstep : List.foldlM (processOne pages) st (a :: rest) =
          processOne pages st a >>= fun st1 =>
            List.foldlM (processOne pages) st1 rest := rfl
      rw [hstep]
      cases hp : processOne pages st a with
      | error e =>
          have he : e = Err.missingField :=
            processOne_only_missingField pages st a e hp
          subst he
          rfl
      | ok st1 =>
          rcases List.mem_cons.mp hmem with rfl | hmem'
          · rw [processOne_err_of_no_heading pages st s hnone] at hp
            cases hp
          · show List.foldlM (processOne pages) st1 rest = _
            exact ih st1 hmem'

theorem rowNameOk_of_lookup (cols : List String) (r : List (Option String))
    (v : String)
    (h : pairLookup (cols.zip r) "Pokemon Name" = some (some v)) (hv : v ≠ "") :
    rowNameOk cols r = true := by
  unfold rowNameOk
  rw [h]
  simp [hv]

theorem nameNonEmpty_build (df? : Option DataFrame) (d : Dict) (v : String)
    (hd : lookupD d "Pokemon Name" = some v) (hv : v ≠ "")
    (hprev : nameNonEmpty df?) :
    nameNonEmpty (build_database df? d) := by
  have hdm : "Pokemon Name" ∈ keysOf d := pairLookup_some_mem hd
  cases df? with
  | none =>
      show nameNonEmpty (some (rowDF d))
      intro r hr
      have hr' : r ∈ [d.map (fun kv => some kv.2)] := hr
      rw [List.mem_singleton] at hr'
      subst hr'
      refine rowNameOk_of_lookup _ _ v ?_ hv
      have hz : (keysOf d).zip (d.map (fun kv => some kv.2)) =
          d.map (fun kv => (kv.1, some kv.2)) := List.zip_map' _ _ d
      show pairLookup ((keysOf d).zip (d.map (fun kv => some kv.2)))
        "Pokemon Name" = some (some v)
      have hd' : pairLookup d "Pokemon Name" = some v := hd
      rw [hz, pairLookup_map_pairs, hd']
      rfl
  | some df =>
      show nameNonEmpty (some (concatDF df (rowDF d)))
      intro r hr
      have hcolsC : (concatDF df (rowDF d)).cols =
          df.cols ++ (keysOf d).filter (fun c => !df.cols.contains c) := rfl
      have hr' : r ∈ df.rows.map
          (reindex (concatDF df (rowDF d)).cols df.cols) ++
          [reindex (concatDF df (rowDF d)).cols (keysOf d)
            (d.map (fun kv => some kv.2))] := hr
      have hdC : "Pokemon Name" ∈ (concatDF df (rowDF d)).cols := by
        rw [hcolsC]
        by_cases hdf : "Pokemon Name" ∈ df.cols
        · exact List.mem_append.mpr (Or.inl hdf)
        · refine List.mem_append.mpr (Or.inr ?_)
          exact List.mem_filter.mpr ⟨hdm, by simp [hdf]⟩
      rcases List.mem_append.mp hr' with hrl | hrl
      · obtain ⟨r0, hr0, rfl⟩ := List.mem_map.mp hrl
        have hold := hprev r0 hr0
        unfold rowNameOk at hold
        cases hl : pairLookup (df.cols.zip r0) "Pokemon Name" with
        | none => rw [hl] at hold; simp at hold
        | some o =>
            cases o with
            | none => rw [hl] at hold; simp at hold
            | some sv =>
                rw [hl] at hold
                have hs : sv ≠ "" := by simpa using hold
                refine rowNameOk_of_lookup _ _ sv ?_ hs
                show pairLookup ((concatDF df (rowDF d)).cols.zip
                  ((concatDF df (rowDF d)).cols.map (colLookup df.cols r0)))
                  "Pokemon Name" = some (some sv)
                rw [pairLookup_zip_self, if_pos hdC]
                unfold colLookup
                rw [hl]
      · rw [List.mem_singleton] at hrl
        subst hrl
        refine rowNameOk_of_lookup _ _ v ?_ hv
        show pairLookup ((concatDF df (rowDF d)).cols.zip
          ((concatDF df (rowDF d)).cols.map
            (colLookup (keysOf d) (d.map (fun kv => some kv.2)))))
          "Pokemon Name" = some (some v)
        rw [pairLookup_zip_self, if_pos hdC, colLookup_rowDF, hd]

theorem run_preserves_name (pages : String → Node) (suffixes : List String)
    (st st' : ScrapState)
    (hst : nameNonEmpty st.dataframe)
    (hnv : ∀ s ∈ suffixes, nameValue (pages (build_pokemon_url s)) ≠ Except.ok "")
    (hf : List.foldlM (processOne pages) st suffixes = Except.ok st') :
    nameNonEmpty st'.dataframe := by
  induction suffixes generalizing st with
  | nil =>
      have hf' : (Except.ok st : Except Err ScrapState) = Except.ok st' := hf
      injection hf' with hf'
      rwa [← hf']
  | cons a rest ih =>
      have hstep : List.foldlM (processOne pages) st (a :: rest) =
          processOne pages st a >>= fun st1 =>
            List.foldlM (processOne pages) st1 rest := rfl
      rw [hstep] at hf
      cases hp : processOne pages st a with
      | error e =>
          rw [hp] at hf
          have hf' : (Except.error e : Except Err (ScrapState)) = Except.ok st' := hf
          cases hf'
      | ok st1 =>
          rw [hp] at hf
          have hf' : List.foldlM (processOne pages) st1 rest = Except.ok st' := hf
          obtain ⟨d, hg, hst1⟩ := processOne_ok pages st a st1 hp
          obtain ⟨v, hvd, hnvv⟩ := get_pokemon_data_name _ _ _ hg
          have hvne : v ≠ "" := by
            intro hveq
            subst hveq
            exact hnv a (List.mem_cons_self a rest) hnvv
          have h1 : nameNonEmpty st1.dataframe := by
            rw [hst1]
            exact nameNonEmpty_build _ _ _ hvd hvne hst
          exact ih st1 h1 (fun s hs => hnv s (List.mem_cons_of_mem a hs)) hf'

/-! ## The claims -/

/-- C1: the spec's end-to-end scenario expects row 2 = `{"Ivysaur", ""}`,
but the source, which never resets the shared `pokemon_dict_data` between
entities (`src/scraping.py:25,121-122`), carries entity 1's `Type` value
`"Grass / Poison"` into entity 2's row.  This theorem evaluates the full
pipeline at exactly the scenario's input and exhibits the divergence: the
final frame is `c1Result`, whose row 2 `Type` cell is
`"Grass / Poison"`, not the empty value. -/
theorem C1_end_to_end_actual :
    run_scraping c1Pages "LIST" initState =
      Except.ok (ScrapState.mk
        [("Pokemon Name", "Ivysaur"), ("Type", "Grass / Poison")]
        (some c1Result)) ∧
    cellVal c1Result 1 "Type" = some (some "Grass / Poison") ∧
    some (some "Grass / Poison") ≠ (some (some "") : Option (Option String)) :=
  ⟨rfl, rfl, by decide⟩

/-- C2: a Table of the system (any accumulator value producible by the
pipeline's appends) with zero rows is exactly the unset accumulator, and
persisting it fails with `EmptyTableError` before any effect: the error
result carries no connect/write effect, so no external store is
contacted. -/
theorem C2_empty_table_rejected (t : Option DataFrame) (conn : Dict)
    (hp : Producible t) (hz : tableRows t = 0) :
    save_dataframe_to_oracle t conn = Except.error Err.emptyTable ∧
    ∀ effs, save_dataframe_to_oracle t conn ≠ Except.ok effs := by
  have ht := producible_rows_zero t hp hz
  subst ht
  refine ⟨rfl, fun effs h => ?_⟩
  have h' : (Except.error Err.emptyTable : Except Err (List Effect)) =
    Except.ok effs := h
  cases h'

theorem C2_empty_table_rejected_witness :
    save_dataframe_to_oracle none [] = Except.error Err.emptyTable ∧
    ∀ effs, save_dataframe_to_oracle none [] ≠ Except.ok effs :=
  C2_empty_table_rejected none [] ⟨[], rfl⟩ rfl

/-- C3: if any listed entity's detail page lacks the `#main > h1` heading,
the whole run fails with `MissingFieldError` (the only error the per-entity
step can raise, so the first failing entity aborts with it even when
earlier entities succeeded), and nothing is persisted: the combined
run-then-persist pipeline returns an error, never a write-effect trace. -/
theorem C3_missing_heading_aborts (pages : String → Node) (url_path : String)
    (conn : Dict) (suffixes : List String) (s : String)
    (hurls : get_urls pages url_path = Except.ok suffixes)
    (hmem : s ∈ suffixes)
    (hnone : (Node.mainH1s false (pages (build_pokemon_url s))).head? = none) :
    run_and_persist pages url_path conn = Except.error Err.missingField ∧
    ∀ effs, run_and_persist pages url_path conn ≠ Except.ok effs := by
  have hrun : run_scraping pages url_path initState =
      Except.error Err.missingField := by
    unfold run_scraping
    rw [hurls]
    show List.foldlM (processOne pages) initState suffixes = _
    exact foldlM_missing pages suffixes initState s hmem hnone
  have hmain : run_and_persist pages url_path conn =
      Except.error Err.missingField := by
    unfold run_and_persist
    rw [hrun]
    rfl
  refine ⟨hmain, fun effs h => ?_⟩
  rw [hmain] at h
  cases h

theorem C3_missing_heading_aborts_witness :
    run_and_persist c3Pages "LIST" [] = Except.error Err.missingField ∧
    ∀ effs, run_and_persist c3Pages "LIST" [] ≠ Except.ok effs :=
  C3_missing_heading_aborts c3Pages "LIST" [] ["/pokedex/1", "/pokedex/9"]
    "/pokedex/9" rfl (by decide) rfl

/-- C6: on a well-formed listing document (every matched anchor carries an
`href`), `get_urls` returns exactly the `href` of each anchor matched by
`div.infocard > span.infocard-lg-img > a`, one per match, in document
order, with no deduplication; in particular zero matches yield
`Except.ok []` rather than an error. -/
theorem C6_listing_extractor (pages : String → Node) (url_path : String)
    (hwf : ∀ a ∈ Node.cardAnchors false false (pages url_path),
      a.hrefOf ≠ none) :
    get_urls pages url_path =
      Except.ok ((Node.cardAnchors false false (pages url_path)).map
        (fun a => a.hrefOf.getD "")) := by
  unfold get_urls
  generalize Node.cardAnchors false false (pages url_path) = tags at hwf
  induction tags with
  | nil => rfl
  | cons a rest ih =>
      have ha := hwf a (List.mem_cons_self a rest)
      cases hh : a.hrefOf with
      | none => exact absurd hh ha
      | some h =>
          rw [List.mapM_cons, ih (fun a' ha' => hwf a' (List.mem_cons_of_mem a ha'))]
          simp [hh]
          rfl

theorem C6_listing_extractor_witness :
    get_urls c1Pages "LIST" =
      Except.ok ((Node.cardAnchors false false (c1Pages "LIST")).map
        (fun a => a.hrefOf.getD "")) :=
  C6_listing_extractor c1Pages "LIST" (by decide)

/-- C9: on a connection dict missing at least one of the six required keys,
`save_dataframe_to_oracle` on any non-empty frame fails with the
configuration error for the first missing key in source order (no default
is substituted). -/
theorem C9_required_conn_keys (conn : Dict) (df : DataFrame)
    (_hrows : df.rows ≠ [])
    (hmiss : ∃ k ∈ requiredConnKeys, lookupD conn k = none) :
    ∃ m, m ∈ requiredConnKeys ∧ lookupD conn m = none ∧
      save_dataframe_to_oracle (some df) conn =
        Except.error (Err.configError m) := by
  have hs : save_dataframe_to_oracle (some df) conn = oracle_write df conn := rfl
  have hok : ∀ k v, lookupD conn k = some v → connGet conn k = Except.ok v := by
    intro k v hk
    unfold connGet
    rw [hk]
  have hko : ∀ k, lookupD conn k = none →
      connGet conn k = Except.error (Err.configError k) := by
    intro k hk
    unfold connGet
    rw [hk]
  cases hu : lookupD conn "user" with
  | none =>
      refine ⟨"user", by decide, hu, ?_⟩
      rw [hs]
      unfold oracle_write
      rw [hko "user" hu]
      rfl
  | some vu =>
  cases hp : lookupD conn "password" with
  | none =>
      refine ⟨"password", by decide, hp, ?_⟩
      rw [hs]
      unfold oracle_write
      rw [hok "user" vu hu, hko "password" hp]
      rfl
  | some vp =>
  cases hh : lookupD conn "host" with
  | none =>
      refine ⟨"host", by decide, hh, ?_⟩
      rw [hs]
      unfold oracle_write
      rw [hok "user" vu hu, hok "password" vp hp, hko "host" hh]
      rfl
  | some vh =>
  cases hpo : lookupD conn "port" with
  | none =>
      refine ⟨"port", by decide, hpo, ?_⟩
      rw [hs]
      unfold oracle_write
      rw [hok "user" vu hu, hok "password" vp hp, hok "host" vh hh,
        hko "port" hpo]
      rfl
  | some vpo =>
  cases hsv : lookupD conn "service" with
  | none =>
      refine ⟨"service", by decide, hsv, ?_⟩
      rw [hs]
      unfold oracle_write
      rw [hok "user" vu hu, hok "password" vp hp, hok "host" vh hh,
        hok "port" vpo hpo, hko "service" hsv]
      rfl
  | some vsv =>
  cases htn : lookupD conn "table_name" with
  | none =>
      refine ⟨"table_name", by decide, htn, ?_⟩
      rw [hs]
      unfold oracle_write
      rw [hok "user" vu hu, hok "password" vp hp, hok "host" vh hh,
        hok "port" vpo hpo, hok "service" vsv hsv, hko "table_name" htn]
      rfl
  | some vtn =>
      exfalso
      obtain ⟨k, hk, hkn⟩ := hmiss
      simp only [requiredConnKeys, List.mem_cons, List.not_mem_nil,
        or_false] at hk
      rcases hk with rfl | rfl | rfl | rfl | rfl | rfl
      · rw [hu] at hkn; cases hkn
      · rw [hp] at hkn; cases hkn
      · rw [hh] at hkn; cases hkn
      · rw [hpo] at hkn; cases hkn
      · rw [hsv] at hkn; cases hkn
      · rw [htn] at hkn; cases hkn

theorem C9_required_conn_keys_witness :
    ∃ m, m ∈ requiredConnKeys ∧ lookupD [] m = none ∧
      save_dataframe_to_oracle (some (rowDF [("A", "B")])) [] =
        Except.error (Err.configError m) :=
  C9_required_conn_keys [] (rowDF [("A", "B")]) (by decide)
    ⟨"user", by decide, rfl⟩

/-- C10: the detail extractor never removes keys from the scraper's shared
attribute dict: if the dict binds `k` and the current detail page
contributes no pair for `k` (it is neither the reserved name key nor a
key of any attribute table on the page), the binding survives the
extraction unchanged — an earlier entity's attributes leak into the next
entity's row unless overwritten. -/
theorem C10_stale_keys_carry_over (d0 : Dict) (doc : Node) (d : Dict)
    (k v : String)
    (hk : lookupD d0 k = some v) (hname : k ≠ "Pokemon Name")
    (hcontrib : k ∉ contributedKeys doc)
    (h : get_pokemon_data d0 doc = Except.ok d) :
    lookupD d k = some v := by
  cases hh : (Node.mainH1s false doc).head? with
  | none =>
      rw [get_pokemon_data_err d0 doc hh] at h
      cases h
  | some h1 =>
      rw [get_pokemon_data_eq d0 doc h1 hh] at h
      injection h with h
      subst h
      rw [lookupD_dictUpdate]
      have hnp : k ∉ keysOf (allPairs doc) := fun hmem =>
        hcontrib (List.mem_dedup.mpr hmem)
      rw [lastVal_eq_none _ _ hnp]
      show lookupD (dictInsert d0 "Pokemon Name" (getTextStrip h1)) k = some v
      rw [lookupD_dictInsert, if_neg (fun hh2 => hname hh2.symm)]
      exact hk

theorem C10_stale_keys_carry_over_witness :
    lookupD [("Type", "Grass / Poison"), ("Pokemon Name", "Ivysaur")]
      "Type" = some "Grass / Poison" :=
  C10_stale_keys_carry_over [("Type", "Grass / Poison")] c1Page2
    [("Type", "Grass / Poison"), ("Pokemon Name", "Ivysaur")]
    "Type" "Grass / Poison" rfl (by decide) (by decide) rfl

/-- C4: appending dicts with duplicate-free key sets (Python dicts) one at
a time yields a frame whose column set is the union of the key sets, with
one row per appended dict, every row carrying one explicit cell per column;
the cell of row `i` at column `c` is the dict's value when present
(`some`) and the missing value (`none`) otherwise — which covers both the
backfill of new columns in prior rows and the empty cells of columns the
row lacks. -/
theorem C4_accumulator_column_union (ds : List Dict) (df : DataFrame)
    (hnd : ∀ d ∈ ds, (keysOf d).Nodup)
    (hfold : ds.foldl build_database none = some df) :
    (∀ c, c ∈ df.cols ↔ ∃ d ∈ ds, c ∈ keysOf d) ∧
    df.rows.length = ds.length ∧
    (∀ r ∈ df.rows, r.length = df.cols.length) ∧
    (∀ i (hi : i < ds.length) c, c ∈ df.cols →
      cellVal df i c = some (lookupD (ds.get ⟨i, hi⟩) c)) := by
  have hne : ds ≠ [] := by
    intro h
    subst h
    cases hfold
  obtain ⟨df', hdf', hrep⟩ := foldl_build_database ds hnd hne
  rw [hdf'] at hfold
  injection hfold with hfold
  subst hfold
  obtain ⟨hc, hr⟩ := hrep
  refine ⟨?_, ?_, ?_, ?_⟩
  · intro c
    rw [hc]
    exact mem_colsUnion ds c
  · rw [hr, List.length_map]
  · intro r hrm
    rw [hr] at hrm
    obtain ⟨d, hd, rfl⟩ := List.mem_map.mp hrm
    rw [List.length_map]
  · intro i hi c hcmem
    unfold cellVal
    rw [hr, List.getElem?_map]
    have hival : ds[i]? = some (ds.get ⟨i, hi⟩) := by
      rw [List.getElem?_eq_getElem hi]
      rfl
    rw [hival]
    show pairLookup (df'.cols.zip (df'.cols.map (lookupD (ds.get ⟨i, hi⟩)))) c =
      some (lookupD (ds.get ⟨i, hi⟩) c)
    rw [pairLookup_zip_self, if_pos hcmem]

theorem C4_accumulator_column_union_witness :
    (∀ c, c ∈ (DataFrame.mk ["Pokemon Name", "Type"]
        [[some "A", none], [some "B", some "C"]]).cols ↔
      ∃ d ∈ [[("Pokemon Name", "A")], [("Pokemon Name", "B"), ("Type", "C")]],
        c ∈ keysOf d) ∧
    (DataFrame.mk ["Pokemon Name", "Type"]
      [[some "A", none], [some "B", some "C"]]).rows.length =
      [[("Pokemon Name", "A")], [("Pokemon Name", "B"), ("Type", "C")]].length ∧
    (∀ r ∈ (DataFrame.mk ["Pokemon Name", "Type"]
        [[some "A", none], [some "B", some "C"]]).rows,
      r.length = (DataFrame.mk ["Pokemon Name", "Type"]
        [[some "A", none], [some "B", some "C"]]).cols.length) ∧
    (∀ i (hi : i < [[("Pokemon Name", "A")],
        [("Pokemon Name", "B"), ("Type", "C")]].length) c,
      c ∈ (DataFrame.mk ["Pokemon Name", "Type"]
        [[some "A", none], [some "B", some "C"]]).cols →
      cellVal (DataFrame.mk ["Pokemon Name", "Type"]
        [[some "A", none], [some "B", some "C"]]) i c =
        some (lookupD ([[("Pokemon Name", "A")],
          [("Pokemon Name", "B"), ("Type", "C")]].get ⟨i, hi⟩) c)) :=
  C4_accumulator_column_union
    [[("Pokemon Name", "A")], [("Pokemon Name", "B"), ("Type", "C")]]
    (DataFrame.mk ["Pokemon Name", "Type"]
      [[some "A", none], [some "B", some "C"]])
    (by decide) rfl

/-- C5 (amended): starting from an empty attribute mapping, on a detail
document whose heading exists and none of whose attribute rows is headed
by the reserved `"Pokemon Name"` key, the extractor's output has exactly
M+1 keys, where M is the number of distinct contributed attribute keys,
and each contributed key holds the value of the LAST attribute table (in
document order) that binds it. -/
theorem C5_detail_extractor_keys (doc : Node) (h1 : Node)
    (hh : (Node.mainH1s false doc).head? = some h1)
    (hres : "Pokemon Name" ∉ contributedKeys doc) :
    ∃ d, get_pokemon_data [] doc = Except.ok d ∧
      (keysOf d).length = (contributedKeys doc).length + 1 ∧
      ∀ k ∈ contributedKeys doc, lookupD d k = lastTableValue doc k := by
  refine ⟨dictUpdate (dictInsert [] "Pokemon Name" (getTextStrip h1))
    (allPairs doc), get_pokemon_data_eq [] doc h1 hh, ?_, ?_⟩
  · have hkeys1 : keysOf (dictInsert [] "Pokemon Name" (getTextStrip h1)) =
        ["Pokemon Name"] := rfl
    have hn1 : (keysOf (dictInsert [] "Pokemon Name" (getTextStrip h1))).Nodup := by
      rw [hkeys1]
      simp
    have hnodup := nodup_keysOf_dictUpdate _ (allPairs doc) hn1
    have htarget : ("Pokemon Name" :: contributedKeys doc).Nodup :=
      List.nodup_cons.mpr ⟨hres, List.nodup_dedup _⟩
    have hmem : ∀ m, m ∈ keysOf (dictUpdate
        (dictInsert [] "Pokemon Name" (getTextStrip h1)) (allPairs doc)) ↔
        m ∈ "Pokemon Name" :: contributedKeys doc := by
      intro m
      rw [mem_keysOf_dictUpdate, hkeys1]
      unfold contributedKeys
      simp [List.mem_cons, List.mem_dedup]
    have hperm := (List.perm_ext_iff_of_nodup hnodup htarget).mpr hmem
    rw [hperm.length_eq, List.length_cons]
  · intro k hkc
    rw [lookupD_dictUpdate]
    have hkmem : k ∈ keysOf (allPairs doc) := List.mem_dedup.mp hkc
    obtain ⟨w, hw⟩ := lastVal_isSome_of_mem _ _ hkmem
    rw [hw]
    unfold lastTableValue
    rw [← lastVal_flatMap]
    exact hw.symm

theorem C5_detail_extractor_keys_witness :
    ∃ d, get_pokemon_data [] c1Page1 = Except.ok d ∧
      (keysOf d).length = (contributedKeys c1Page1).length + 1 ∧
      ∀ k ∈ contributedKeys c1Page1, lookupD d k = lastTableValue c1Page1 k :=
  C5_detail_extractor_keys c1Page1
    (.elem "h1" [] none none (nodes [.text "Bulbasaur"])) rfl (by decide)

/-- C5 counterexample: on a detail page contributing M = 1 pair whose
header IS the reserved key, the extractor's output has 1 key, not
M + 1 = 2: the table row overwrites the reserved name entry instead of
adding a new key, refuting the claim's key count as stated. -/
theorem C5_reserved_key_collision :
    get_pokemon_data [] reservedKeyPage =
      Except.ok [("Pokemon Name", "Hacked")] ∧
    (contributedKeys reservedKeyPage).length = 1 ∧
    (keysOf ([("Pokemon Name", "Hacked")] : Dict)).length ≠
      (contributedKeys reservedKeyPage).length + 1 :=
  ⟨rfl, rfl, by decide⟩

/-- C7: accumulating dicts (with duplicate-free key sets) one at a time
through `build_database` from the unset accumulator yields exactly the
Table obtained by batching them: same columns in the same order, same
rows, same cell values. -/
theorem C7_batch_equivalence (ds : List Dict)
    (hnd : ∀ d ∈ ds, (keysOf d).Nodup) :
    ds.foldl build_database none = batchTable ds := by
  cases ds with
  | nil => rfl
  | cons d rest =>
      obtain ⟨df, hdf, hrep⟩ := foldl_build_database (d :: rest) hnd (by simp)
      rw [hdf]
      obtain ⟨hc, hr⟩ := hrep
      show some df = some (DataFrame.mk (colsUnion (d :: rest))
        ((d :: rest).map (fun d' => (colsUnion (d :: rest)).map (lookupD d'))))
      cases df with
      | mk cols rows =>
          have hc' : cols = colsUnion (d :: rest) := hc
          have hr' : rows = (d :: rest).map (fun d' => cols.map (lookupD d')) := hr
          subst hc'
          rw [hr']

theorem C7_batch_equivalence_witness :
    [[("Pokemon Name", "A")], [("Pokemon Name", "B"), ("Type", "C")]].foldl
        build_database none =
      batchTable [[("Pokemon Name", "A")],
        [("Pokemon Name", "B"), ("Type", "C")]] :=
  C7_batch_equivalence
    [[("Pokemon Name", "A")], [("Pokemon Name", "B"), ("Type", "C")]]
    (by decide)

/-- C8 (amended): the display-name invariant holds at every point of a run
provided every processed page's extracted name value is non-empty: if
every row of the accumulator so far has a non-empty `"Pokemon Name"` cell
and no page in the remaining suffix list yields the empty name value,
then after processing them every row still has a non-empty name cell.
(As stated the claim is false: the code never checks that the heading's
trimmed text is non-empty — see the counterexample.) -/
theorem C8_name_nonempty_preserved (pages : String → Node)
    (suffixes : List String) (st st' : ScrapState)
    (hst : nameNonEmpty st.dataframe)
    (hnv : ∀ s ∈ suffixes,
      nameValue (pages (build_pokemon_url s)) ≠ Except.ok "")
    (hf : List.foldlM (processOne pages) st suffixes = Except.ok st') :
    nameNonEmpty st'.dataframe :=
  run_preserves_name pages suffixes st st' hst hnv hf

theorem C8_name_nonempty_preserved_witness :
    nameNonEmpty (ScrapState.mk
      [("Pokemon Name", "Bulbasaur"), ("Type", "Grass / Poison")]
      (some (DataFrame.mk ["Pokemon Name", "Type"]
        [[some "Bulbasaur", some "Grass / Poison"]]))).dataframe :=
  C8_name_nonempty_preserved c1Pages ["/pokedex/1"] initState
    (ScrapState.mk
      [("Pokemon Name", "Bulbasaur"), ("Type", "Grass / Poison")]
      (some (DataFrame.mk ["Pokemon Name", "Type"]
        [[some "Bulbasaur", some "Grass / Poison"]])))
    True.intro (by decide) rfl

/-- C8 counterexample: a run whose single entity page has an `h1` with
empty text ends with a row whose `"Pokemon Name"` cell is the empty
string — the pipeline appends it without complaint, refuting the
invariant as stated. -/
theorem C8_empty_name_row :
    run_scraping c8Pages "LIST" initState =
      Except.ok (ScrapState.mk [("Pokemon Name", "")]
        (some (DataFrame.mk ["Pokemon Name"] [[some ""]]))) ∧
    ¬ nameNonEmpty (some (DataFrame.mk ["Pokemon Name"] [[some ""]])) :=
  ⟨rfl, fun h => absurd (h [some ""] (List.mem_singleton.mpr rfl)) (by decide)⟩
